import Mathlib

/-!
Shallow embedding of the streaming tool-invocation loop of
`ClaudeClient` (src/unnamed/part_000) from claude-scraping-kit.

The TypeScript source is an async generator `ClaudeClient.stream` that
consumes a chunked event stream, reconstructs content blocks from
deltas, dispatches tool handlers, and loops until the model stops
requesting tools.  The embedding below is purely functional: the
mutable locals (`pendingBlock`, `responseBlocks`, `pendingText`) become
fields of an explicit assembler state, the `yield`ed string increments
are accumulated in a `yields` list, thrown exceptions become the
`Except` monad, and the network is an oracle: a list of event streams,
one per model turn.  `JSON.parse` and Zod schema validation are
external library calls and are passed in as function parameters.

One deliberate divergence from TypeScript object semantics: the source
mutates the pending block object in place when finalizing it, so after
a duplicate `content_block_stop` the already-pushed block aliases the
re-finalized one.  The embedding builds a fresh block at each stop.  On
well-formed streams (each block is start, deltas, stop) the two are
observationally identical, and the theorems below that touch duplicate
stops only assert facts on which the two semantics agree.
-/

/-- JSON values, the result type of the external JSON.parse. -/
inductive Json where
  | obj (fields : List (String × Json))
  | arr (elems : List Json)
  | str (s : String)
  | num (n : Int)
  | bool (b : Bool)
  | null
deriving Repr

/-- A parse function standing for the external JSON.parse: `none` models a
thrown SyntaxError. -/
def JsonParse : Type := String → Option Json

/-- The in-progress block set by a content_block_start event
(chunk.content_block in the source): either a text block or a tool_use
block carrying its invocation id and tool name.  The initial text and
input carried on the start event are dead values in the source (they
are overwritten at finalization), so they are not modeled. -/
inductive PendingBlock where
  | text
  | toolUse (id : String) (name : String)
deriving Repr, DecidableEq

/-- A finalized content block of an assistant turn
(TextBlockParam or ToolUseBlockParam). -/
inductive RespBlock where
  | text (text : String)
  | toolUse (id : String) (name : String) (input : Json)
deriving Repr

/-- A tool_result block (ToolResultBlockParam).  The source omits the
is_error field on success; that is modeled as is_error = false. -/
structure ToolResultBlock where
  tool_use_id : String
  content : String
  is_error : Bool
deriving Repr

/-- The two delta payload shapes handled by the content_block_delta case. -/
inductive Delta where
  | inputJsonDelta (s : String)
  | textDelta (s : String)
deriving Repr

/-- Raw stream events.  The switch in the source handles exactly three
event types; every other RawMessageStreamEvent (message_start,
message_delta, message_stop, ping) falls through and is ignored, which
`otherEvent` models. -/
inductive StreamEvent where
  | contentBlockStart (block : PendingBlock)
  | contentBlockStop
  | contentBlockDelta (delta : Delta)
  | otherEvent
deriving Repr

/-- Thrown failures of one stream call. -/
inductive Err where
  | unexpectedStop
  | jsonSyntaxError (buffer : String)
  | noHandler (name : String)
  | unrecognizedFailure
  | oracleEnd
deriving Repr, DecidableEq

/-- The mutable locals of one turn of the generator: the pending block,
the blocks finalized so far, the accumulating text buffer, and the
string increments yielded to the caller so far. -/
structure AsmState where
  pendingBlock : Option PendingBlock
  responseBlocks : List RespBlock
  pendingText : String
  yields : List String
deriving Repr

/-- State at the top of a turn: lines 129-131 of the source. -/
def initAsmState : AsmState :=
  { pendingBlock := none, responseBlocks := [], pendingText := "", yields := [] }

/-- One iteration of the `for await (const chunk of response)` switch,
lines 133-163 of the source. -/
def stepEvent (parse : JsonParse) (st : AsmState) (e : StreamEvent) :
    Except Err AsmState :=
  match e with
  | .contentBlockStart b =>
      .ok { st with pendingBlock := some b }
  | .contentBlockStop =>
      match st.pendingBlock with
      | none => .error .unexpectedStop
      | some .text =>
          .ok { st with
                responseBlocks := st.responseBlocks ++ [.text st.pendingText],
                pendingText := "",
                yields := st.yields ++ ["\n"] }
      | some (.toolUse id name) =>
          if st.pendingText = "" then
            .ok { st with
                  responseBlocks :=
                    st.responseBlocks ++ [.toolUse id name (Json.obj [])],
                  pendingText := "" }
          else
            match parse st.pendingText with
            | none => .error (.jsonSyntaxError st.pendingText)
            | some j =>
                .ok { st with
                      responseBlocks :=
                        st.responseBlocks ++ [.toolUse id name j],
                      pendingText := "" }
  | .contentBlockDelta d =>
      match d with
      | .inputJsonDelta s =>
          .ok { st with pendingText := st.pendingText ++ s }
      | .textDelta s =>
          .ok { st with
                pendingText := st.pendingText ++ s,
                yields := st.yields ++ [s] }
  | .otherEvent => .ok st

/-- Folding the event loop over a whole event sequence. -/
def assembleEvents (parse : JsonParse) (st : AsmState) :
    List StreamEvent → Except Err AsmState
  | [] => .ok st
  | e :: es => do assembleEvents parse (← stepEvent parse st e) es

/-- Assembling one model turn from the initial state.  When the stream
ends mid-block the unfinalized pending block is silently discarded, as
in the source (only responseBlocks is consumed afterwards). -/
def assembleTurn (parse : JsonParse) (events : List StreamEvent) :
    Except Err AsmState :=
  assembleEvents parse initAsmState events

/-- Outcome of awaiting one tool handler call: the returned string, a
thrown `Error` instance carrying a message (recognized by the
`error instanceof Error` test in the source), or a thrown non-Error
value (unrecognized). -/
inductive HandlerOutcome where
  | success (s : String)
  | errorWith (msg : String)
  | unrecognized

/-- A registered handler: (input: unknown) => Promise of string. -/
def Handler : Type := Json → HandlerOutcome

/-- JS Map.get: the value stored under the key, if any. -/
def mapGet {α : Type} : List (String × α) → String → Option α
  | [], _ => none
  | (k', v') :: rest, k => if k' = k then some v' else mapGet rest k

/-- JS Map.set: replace the value in place when the key exists,
otherwise append the new entry. -/
def mapSet {α : Type} : List (String × α) → String → α → List (String × α)
  | [], k, v => [(k, v)]
  | (k', v') :: rest, k, v =>
      if k' = k then (k, v) :: rest else (k', v') :: mapSet rest k v

/-- A tool descriptor sent to the provider (the Tool wire type): name,
input_schema (an opaque JSON value produced by the external schema
converter) and an optional description. -/
structure ToolDecl where
  name : String
  input_schema : Json
  description : Option String

/-- The tool state of a ClaudeClient instance: the `tools` array sent
to the provider and the `toolHandlers` Map, both empty after the
constructor (lines 49-50 of the source). -/
structure ClientTools where
  tools : List ToolDecl
  toolHandlers : List (String × Handler)

def ClientTools.empty : ClientTools := { tools := [], toolHandlers := [] }

/-- ClaudeClient.addTool, lines 61-64 of the source: push the
descriptor onto the array and set the handler in the Map. -/
def addTool (c : ClientTools) (tool : ToolDecl) (handler : Handler) :
    ClientTools :=
  { tools := c.tools ++ [tool],
    toolHandlers := mapSet c.toolHandlers tool.name handler }

/-- The wrapper installed by addZodTool (lines 89-91 of the source):
parse the raw input with the schema, then run the typed handler.
`schemaParse` stands for the external `schema.parse`; its failure is a
thrown ZodError, which is an `Error` instance, hence `errorWith`. -/
def zodWrapper {α : Type} (schemaParse : Json → Except String α)
    (handler : α → HandlerOutcome) : Handler :=
  fun input =>
    match schemaParse input with
    | .ok t => handler t
    | .error m => .errorWith m

/-- ClaudeClient.addZodTool, lines 78-93 of the source.  `schemaJson`
stands for the external zodToInputSchema conversion of the schema. -/
def addZodTool {α : Type} (c : ClientTools) (name : String)
    (schemaParse : Json → Except String α) (schemaJson : Json)
    (description : Option String) (handler : α → HandlerOutcome) :
    ClientTools :=
  addTool c
    { name := name, input_schema := schemaJson, description := description }
    (zodWrapper schemaParse handler)

/-- The tool dispatch loop, lines 167-195 of the source: walk the
finalized blocks in order; for each tool_use block resolve the handler
(absence throws), await it, and push a tool_result block; a thrown
`Error` becomes an error-flagged result, anything else propagates. -/
def dispatchBlocks (handlers : List (String × Handler)) :
    List RespBlock → Except Err (List ToolResultBlock)
  | [] => .ok []
  | .text _ :: rest => dispatchBlocks handlers rest
  | .toolUse id name input :: rest =>
      match mapGet handlers name with
      | none => .error (.noHandler name)
      | some h =>
          match h input with
          | .success s => do
              pure (⟨id, s, false⟩ :: (← dispatchBlocks handlers rest))
          | .errorWith m => do
              pure (⟨id, m, true⟩ :: (← dispatchBlocks handlers rest))
          | .unrecognized => .error .unrecognizedFailure

inductive Role where
  | user
  | assistant
deriving Repr, DecidableEq

/-- The content of a MessageParam as this client produces and consumes
it: a plain string from the caller, the assistant's block array, or a
tool_result array. -/
inductive MsgContent where
  | text (s : String)
  | blocks (bs : List RespBlock)
  | toolResults (rs : List ToolResultBlock)
deriving Repr

structure Message where
  role : Role
  content : MsgContent
deriving Repr

/-- One iteration of the outer `while (true)` loop, lines 128-200 of
the source, for a given event stream of the turn: assemble the blocks,
append the assistant message, dispatch the tools, and either stop
(no results) or append the tool_result user message and continue.
Returns the new history, the yielded increments of this turn, and
whether the loop requests another network turn. -/
def runTurn (parse : JsonParse) (handlers : List (String × Handler))
    (events : List StreamEvent) (history : List Message) :
    Except Err (List Message × List String × Bool) := do
  let st ← assembleTurn parse events
  let history1 := history ++ [⟨.assistant, .blocks st.responseBlocks⟩]
  let results ← dispatchBlocks handlers st.responseBlocks
  if results.isEmpty then
    pure (history1, st.yields, false)
  else
    pure (history1 ++ [⟨.user, .toolResults results⟩], st.yields, true)

/-- The whole `stream` call, driven by an oracle listing the event
stream the provider returns for each successive network turn.  The
`oracleEnd` error is a modeling artifact: it marks the loop asking for
one more turn than the oracle supplies (in the source the loop would
await the network there). -/
def streamLoop (parse : JsonParse) (handlers : List (String × Handler))
    (history : List Message) :
    List (List StreamEvent) → Except Err (List Message × List String)
  | [] => .error .oracleEnd
  | events :: rest => do
      let (h', y, more) ← runTurn parse handlers events history
      if more then
        let (hf, yf) ← streamLoop parse handlers h' rest
        pure (hf, y ++ yf)
      else
        pure (h', y)

/-- The invocation identifier of a tool_use block, none for text. -/
def toolUseId : RespBlock → Option String
  | .toolUse id _ _ => some id
  | .text _ => none

/-- Whether a stream outcome is a thrown failure. -/
def isFatal {α : Type} : Except Err α → Bool
  | .error _ => true
  | .ok _ => false

/-- A JSON.parse oracle on which every input is a syntax error. -/
def parseNone : JsonParse := fun _ => none

/-- A JSON.parse oracle returning the null value for every input. -/
def parseAnyNull : JsonParse := fun _ => some Json.null

/-- Concatenation of a list of strings. -/
def concatAll (l : List String) : String := l.foldr (· ++ ·) ""

/-- The event sequence of a well-formed text-only turn: one start,
the block's text deltas, one stop, for each block in order. -/
def textTurnEvents (bs : List (List String)) : List StreamEvent :=
  (bs.map (fun ds =>
    .contentBlockStart .text ::
      ds.map (fun s => .contentBlockDelta (.textDelta s)) ++
        [.contentBlockStop])).flatten

/-- A handler that always succeeds, standing for a registered
roll_dice tool returning "4". -/
def rollH : Handler := fun _ => .success "4"

/-- A handler that always throws an Error instance with a message. -/
def echoH : Handler := fun _ => .errorWith "boom"

/-- A handler that always throws a non-Error value. -/
def crashH : Handler := fun _ => .unrecognized

/-- A concrete registry used to exercise the dispatch theorems. -/
def wHandlers : List (String × Handler) :=
  [("roll_dice", rollH), ("echo", echoH), ("crash", crashH)]

/-- A concrete turn with a mix of text and tool_use blocks. -/
def wBlocks : List RespBlock :=
  [.text "hi", .toolUse "id1" "roll_dice" (Json.obj []),
   .toolUse "id2" "echo" Json.null]

/-- Events of a turn requesting the roll_dice tool with empty input. -/
def wToolEvents : List StreamEvent :=
  [.contentBlockStart (.toolUse "id1" "roll_dice"), .contentBlockStop]

/-- The assembler state after wToolEvents. -/
def wToolSt : AsmState :=
  { pendingBlock := some (.toolUse "id1" "roll_dice"),
    responseBlocks := [.toolUse "id1" "roll_dice" (Json.obj [])],
    pendingText := "",
    yields := [] }

/-- Events of a turn requesting the echo tool with empty input. -/
def wEchoEvents : List StreamEvent :=
  [.contentBlockStart (.toolUse "id2" "echo"), .contentBlockStop]

/-- The assembler state after wEchoEvents. -/
def wEchoSt : AsmState :=
  { pendingBlock := some (.toolUse "id2" "echo"),
    responseBlocks := [.toolUse "id2" "echo" (Json.obj [])],
    pendingText := "",
    yields := [] }

/-- Events of a turn requesting a tool that has no handler. -/
def wUnknownEvents : List StreamEvent :=
  [.contentBlockStart (.toolUse "i1" "unknown_tool"), .contentBlockStop]

/-- The assembler state after wUnknownEvents. -/
def wUnknownSt : AsmState :=
  { pendingBlock := some (.toolUse "i1" "unknown_tool"),
    responseBlocks := [.toolUse "i1" "unknown_tool" (Json.obj [])],
    pendingText := "",
    yields := [] }

/-- Two tool descriptors sharing one name, for the duplicate
registration scenario. -/
def dupT1 : ToolDecl := { name := "dup", input_schema := Json.null, description := none }

/-- The second descriptor registered under the same name. -/
def dupT2 : ToolDecl := { name := "dup", input_schema := Json.null, description := some "second" }

/-- The first handler registered under the duplicated name. -/
def dupH1 : Handler := fun _ => .success "one"

/-- The second handler registered under the duplicated name. -/
def dupH2 : Handler := fun _ => .success "two"

/-- A Zod-style schema parse accepting only JSON strings. -/
def spString : Json → Except String String :=
  fun j =>
    match j with
    | .str s => .ok s
    | _ => .error "invalid input"

/-- The typed handler passed to addZodTool in the scenario below. -/
def zHandler : String → HandlerOutcome := fun s => .success s

/-- Events of a turn requesting the zt tool with empty input. -/
def wZodEvents : List StreamEvent :=
  [.contentBlockStart (.toolUse "z1" "zt"), .contentBlockStop]

/-- The assembler state after wZodEvents. -/
def wZodSt : AsmState :=
  { pendingBlock := some (.toolUse "z1" "zt"),
    responseBlocks := [.toolUse "z1" "zt" (Json.obj [])],
    pendingText := "",
    yields := [] }

theorem assembleEvents_cons (parse : JsonParse) (st : AsmState)
    (e : StreamEvent) (es : List StreamEvent) :
    assembleEvents parse st (e :: es) =
      match stepEvent parse st e with
      | .ok st' => assembleEvents parse st' es
      | .error er => .error er := by
  simp only [assembleEvents, bind, Except.bind]
  cases stepEvent parse st e <;> rfl

theorem concatAll_append (l1 l2 : List String) :
    concatAll (l1 ++ l2) = concatAll l1 ++ concatAll l2 := by
  induction l1 with
  | nil => simp [concatAll]
  | cons d ds ih =>
      simp only [concatAll, List.cons_append, List.foldr_cons] at *
      rw [ih, String.append_assoc]

theorem streamLoop_cons (parse : JsonParse)
    (handlers : List (String × Handler)) (history : List Message)
    (events : List StreamEvent) (rest : List (List StreamEvent)) :
    streamLoop parse handlers history (events :: rest) =
      match runTurn parse handlers events history with
      | .error e => .error e
      | .ok (h', y, more) =>
          if more then
            (streamLoop parse handlers h' rest).map (fun p => (p.1, y ++ p.2))
          else .ok (h', y) := by
  simp only [streamLoop, bind, Except.bind]
  cases runTurn parse handlers events history with
  | error e => rfl
  | ok t =>
      obtain ⟨h', y, more⟩ := t
      cases more with
      | false => rfl
      | true =>
          simp only [if_true]
          cases streamLoop parse handlers h' rest with
          | error e => rfl
          | ok p => rfl

theorem runTurn_ok (parse : JsonParse) (handlers : List (String × Handler))
    (events : List StreamEvent) (history : List Message) (st : AsmState)
    (results : List ToolResultBlock)
    (h1 : assembleTurn parse events = .ok st)
    (h2 : dispatchBlocks handlers st.responseBlocks = .ok results) :
    runTurn parse handlers events history =
      if results.isEmpty then
        .ok (history ++ [⟨.assistant, .blocks st.responseBlocks⟩],
             st.yields, false)
      else
        .ok (history ++ [⟨.assistant, .blocks st.responseBlocks⟩,
                         ⟨.user, .toolResults results⟩],
             st.yields, true) := by
  simp only [runTurn, h1, h2, bind, Except.bind, pure, Except.pure]
  cases results.isEmpty <;> simp

theorem assembleEvents_append (parse : JsonParse) (st : AsmState)
    (l1 l2 : List StreamEvent) :
    assembleEvents parse st (l1 ++ l2) =
      match assembleEvents parse st l1 with
      | .ok st' => assembleEvents parse st' l2
      | .error e => .error e := by
  induction l1 generalizing st with
  | nil => rfl
  | cons e es ih =>
      rw [List.cons_append, assembleEvents_cons, assembleEvents_cons]
      cases stepEvent parse st e with
      | error er => rfl
      | ok st' => exact ih st'

theorem assemble_textDeltas (parse : JsonParse) (ds : List String)
    (st : AsmState) :
    assembleEvents parse st
        (ds.map (fun s => .contentBlockDelta (.textDelta s))) =
      .ok { st with pendingText := st.pendingText ++ concatAll ds,
                    yields := st.yields ++ ds } := by
  induction ds generalizing st with
  | nil => simp [assembleEvents, concatAll]
  | cons d ds ih =>
      rw [List.map_cons, assembleEvents_cons]
      simp only [stepEvent]
      rw [ih]
      simp [concatAll, String.append_assoc]

theorem assembleEvents_append_ok (parse : JsonParse) (st st' : AsmState)
    (l1 l2 : List StreamEvent)
    (h1 : assembleEvents parse st l1 = .ok st') :
    assembleEvents parse st (l1 ++ l2) = assembleEvents parse st' l2 := by
  rw [assembleEvents_append, h1]

theorem assemble_textBlock (parse : JsonParse) (ds : List String)
    (st : AsmState) (h : st.pendingText = "") :
    assembleEvents parse st
        (.contentBlockStart .text ::
          ds.map (fun s => .contentBlockDelta (.textDelta s)) ++
            [.contentBlockStop]) =
      .ok { pendingBlock := some .text,
            responseBlocks := st.responseBlocks ++ [.text (concatAll ds)],
            pendingText := "",
            yields := st.yields ++ ds ++ ["\n"] } := by
  have hmid : assembleEvents parse st
      (.contentBlockStart .text ::
        ds.map (fun s => .contentBlockDelta (.textDelta s))) =
      .ok { pendingBlock := some PendingBlock.text,
            responseBlocks := st.responseBlocks,
            pendingText := concatAll ds,
            yields := st.yields ++ ds } := by
    rw [assembleEvents_cons]
    simp only [stepEvent]
    rw [assemble_textDeltas]
    simp [h]
  rw [assembleEvents_append_ok parse st _ _ _ hmid]
  simp [assembleEvents, assembleEvents_cons, stepEvent, List.append_assoc,
    bind, Except.bind]

theorem assemble_textTurn (parse : JsonParse) (bs : List (List String))
    (st : AsmState) (h : st.pendingText = "") :
    ∃ pb, assembleEvents parse st (textTurnEvents bs) =
      .ok { pendingBlock := pb,
            responseBlocks :=
              st.responseBlocks ++ bs.map (fun ds => .text (concatAll ds)),
            pendingText := "",
            yields :=
              st.yields ++ (bs.map (fun ds => ds ++ ["\n"])).flatten } := by
  induction bs generalizing st with
  | nil =>
      refine ⟨st.pendingBlock, ?_⟩
      simp only [textTurnEvents, List.map_nil, List.flatten_nil,
        assembleEvents, List.append_nil]
      obtain ⟨pb, rb, pt, ys⟩ := st
      simp_all
  | cons ds bs ih =>
      simp only [textTurnEvents, List.map_cons, List.flatten_cons] at *
      rw [assembleEvents_append_ok parse st _ _ _
        (assemble_textBlock parse ds st h)]
      obtain ⟨pb, hpb⟩ :=
        ih { pendingBlock := some .text,
             responseBlocks := st.responseBlocks ++ [.text (concatAll ds)],
             pendingText := "",
             yields := st.yields ++ ds ++ ["\n"] } rfl
      refine ⟨pb, ?_⟩
      rw [hpb]
      simp [List.append_assoc]

theorem dispatch_texts (handlers : List (String × Handler))
    (texts : List String) :
    dispatchBlocks handlers (texts.map RespBlock.text) = .ok [] := by
  induction texts with
  | nil => rfl
  | cons t ts ih => simpa [dispatchBlocks] using ih

theorem dispatch_text_cons (handlers : List (String × Handler))
    (s : String) (rest : List RespBlock) :
    dispatchBlocks handlers (.text s :: rest) =
      dispatchBlocks handlers rest := rfl

theorem dispatch_toolUse_none (handlers : List (String × Handler))
    (id name : String) (input : Json) (rest : List RespBlock)
    (hm : mapGet handlers name = none) :
    dispatchBlocks handlers (.toolUse id name input :: rest) =
      .error (.noHandler name) := by
  simp only [dispatchBlocks, hm]

theorem dispatch_toolUse_success (handlers : List (String × Handler))
    (id name : String) (input : Json) (rest : List RespBlock)
    (f : Handler) (s : String)
    (hm : mapGet handlers name = some f) (hf : f input = .success s) :
    dispatchBlocks handlers (.toolUse id name input :: rest) =
      (dispatchBlocks handlers rest).map
        (fun rs => ⟨id, s, false⟩ :: rs) := by
  simp only [dispatchBlocks, hm, hf]
  cases dispatchBlocks handlers rest <;> rfl

theorem dispatch_toolUse_errorWith (handlers : List (String × Handler))
    (id name : String) (input : Json) (rest : List RespBlock)
    (f : Handler) (m : String)
    (hm : mapGet handlers name = some f) (hf : f input = .errorWith m) :
    dispatchBlocks handlers (.toolUse id name input :: rest) =
      (dispatchBlocks handlers rest).map
        (fun rs => ⟨id, m, true⟩ :: rs) := by
  simp only [dispatchBlocks, hm, hf]
  cases dispatchBlocks handlers rest <;> rfl

theorem dispatch_toolUse_unrecognized (handlers : List (String × Handler))
    (id name : String) (input : Json) (rest : List RespBlock)
    (f : Handler)
    (hm : mapGet handlers name = some f) (hf : f input = .unrecognized) :
    dispatchBlocks handlers (.toolUse id name input :: rest) =
      .error .unrecognizedFailure := by
  simp only [dispatchBlocks, hm, hf]

theorem dispatch_ids (handlers : List (String × Handler))
    (blocks : List RespBlock) (results : List ToolResultBlock)
    (h : dispatchBlocks handlers blocks = .ok results) :
    results.map ToolResultBlock.tool_use_id = blocks.filterMap toolUseId := by
  induction blocks generalizing results with
  | nil =>
      simp only [dispatchBlocks] at h
      cases h
      rfl
  | cons b rest ih =>
      cases b with
      | text s =>
          rw [dispatch_text_cons] at h
          simp [toolUseId, List.filterMap_cons, ih results h]
      | toolUse id name input =>
          cases hm : mapGet handlers name with
          | none => rw [dispatch_toolUse_none handlers id name input rest hm] at h; cases h
          | some f =>
              cases hf : f input with
              | success s =>
                  rw [dispatch_toolUse_success handlers id name input rest f s hm hf] at h
                  cases hr : dispatchBlocks handlers rest with
                  | error e => rw [hr] at h; cases h
                  | ok rs =>
                      rw [hr] at h
                      simp only [Except.map, Except.ok.injEq] at h
                      subst h
                      simp [toolUseId, List.filterMap_cons, ih rs hr]
              | errorWith m =>
                  rw [dispatch_toolUse_errorWith handlers id name input rest f m hm hf] at h
                  cases hr : dispatchBlocks handlers rest with
                  | error e => rw [hr] at h; cases h
                  | ok rs =>
                      rw [hr] at h
                      simp only [Except.map, Except.ok.injEq] at h
                      subst h
                      simp [toolUseId, List.filterMap_cons, ih rs hr]
              | unrecognized =>
                  rw [dispatch_toolUse_unrecognized handlers id name input rest f hm hf] at h
                  cases h

theorem mapGet_mapSet_self {α : Type} (m : List (String × α))
    (k : String) (v : α) : mapGet (mapSet m k v) k = some v := by
  induction m with
  | nil => simp [mapGet, mapSet]
  | cons p rest ih =>
      by_cases hk : p.1 = k
      · simp [mapSet, mapGet, hk]
      · obtain ⟨k', v'⟩ := p
        simp only at hk
        simp [mapSet, mapGet, hk, ih]

theorem mapSet_of_absent {α : Type} (m : List (String × α))
    (k : String) (v : α) (hm : mapGet m k = none) :
    mapSet m k v = m ++ [(k, v)] := by
  induction m with
  | nil => rfl
  | cons p rest ih =>
      obtain ⟨k', v'⟩ := p
      simp only [mapGet] at hm
      by_cases hk : k' = k
      · simp [hk] at hm
      · simp only [mapSet, if_neg hk, List.cons_append, List.cons.injEq,
          true_and]
        exact ih (by simpa [hk] using hm)

theorem countP_key_of_absent {α : Type} (m : List (String × α))
    (k : String) (hm : mapGet m k = none) :
    m.countP (fun p => p.1 == k) = 0 := by
  induction m with
  | nil => rfl
  | cons p rest ih =>
      obtain ⟨k', v'⟩ := p
      simp only [mapGet] at hm
      by_cases hk : k' = k
      · simp [hk] at hm
      · rw [List.countP_cons]
        simp only [hk, ih (by simpa [hk] using hm)]
        simp [hk]

theorem dispatch_fatal_of_noHandler (handlers : List (String × Handler))
    (blocks : List RespBlock) (id name : String) (input : Json)
    (hmem : RespBlock.toolUse id name input ∈ blocks)
    (hm : mapGet handlers name = none) :
    ∃ e, dispatchBlocks handlers blocks = .error e ∧ e ≠ Err.oracleEnd := by
  induction blocks with
  | nil => cases hmem
  | cons b rest ih =>
      rcases List.mem_cons.mp hmem with hb | hb
      · subst hb
        exact ⟨.noHandler name,
          dispatch_toolUse_none handlers id name input rest hm, by simp⟩
      · cases b with
        | text s =>
            obtain ⟨e, he, hne⟩ := ih hb
            exact ⟨e, by rw [dispatch_text_cons, he], hne⟩
        | toolUse id' name' input' =>
            cases hm' : mapGet handlers name' with
            | none =>
                exact ⟨.noHandler name',
                  dispatch_toolUse_none handlers id' name' input' rest hm',
                  by simp⟩
            | some f =>
                cases hf : f input' with
                | success s =>
                    obtain ⟨e, he, hne⟩ := ih hb
                    refine ⟨e, ?_, hne⟩
                    rw [dispatch_toolUse_success handlers id' name' input'
                      rest f s hm' hf, he]
                    rfl
                | errorWith m =>
                    obtain ⟨e, he, hne⟩ := ih hb
                    refine ⟨e, ?_, hne⟩
                    rw [dispatch_toolUse_errorWith handlers id' name' input'
                      rest f m hm' hf, he]
                    rfl
                | unrecognized =>
                    exact ⟨.unrecognizedFailure,
                      dispatch_toolUse_unrecognized handlers id' name' input'
                        rest f hm' hf, by simp⟩

theorem runTurn_error_dispatch (parse : JsonParse)
    (handlers : List (String × Handler)) (events : List StreamEvent)
    (history : List Message) (st : AsmState) (e : Err)
    (h1 : assembleTurn parse events = .ok st)
    (h2 : dispatchBlocks handlers st.responseBlocks = .error e) :
    runTurn parse handlers events history = .error e := by
  simp only [runTurn, h1, h2, bind, Except.bind]

theorem streamLoop_error (parse : JsonParse)
    (handlers : List (String × Handler)) (history : List Message)
    (events : List StreamEvent) (rest : List (List StreamEvent)) (e : Err)
    (h : runTurn parse handlers events history = .error e) :
    streamLoop parse handlers history (events :: rest) = .error e := by
  rw [streamLoop_cons, h]

theorem streamLoop_terminal (parse : JsonParse)
    (handlers : List (String × Handler)) (history : List Message)
    (events : List StreamEvent) (rest : List (List StreamEvent))
    (st : AsmState)
    (h1 : assembleTurn parse events = .ok st)
    (h2 : dispatchBlocks handlers st.responseBlocks = .ok []) :
    streamLoop parse handlers history (events :: rest) =
      .ok (history ++ [⟨.assistant, .blocks st.responseBlocks⟩],
           st.yields) := by
  rw [streamLoop_cons,
    runTurn_ok parse handlers events history st [] h1 h2]
  rfl

theorem streamLoop_continue (parse : JsonParse)
    (handlers : List (String × Handler)) (history : List Message)
    (events : List StreamEvent) (rest : List (List StreamEvent))
    (st : AsmState) (results : List ToolResultBlock)
    (h1 : assembleTurn parse events = .ok st)
    (h2 : dispatchBlocks handlers st.responseBlocks = .ok results)
    (h3 : results ≠ []) :
    streamLoop parse handlers history (events :: rest) =
      (streamLoop parse handlers
          (history ++ [⟨.assistant, .blocks st.responseBlocks⟩,
                       ⟨.user, .toolResults results⟩]) rest).map
        (fun p => (p.1, st.yields ++ p.2)) := by
  rw [streamLoop_cons,
    runTurn_ok parse handlers events history st results h1 h2]
  simp [List.isEmpty_eq_true, h3]

theorem mapSet_append_key {α : Type} (m : List (String × α))
    (k : String) (v v' : α) (hm : mapGet m k = none) :
    mapSet (m ++ [(k, v)]) k v' = m ++ [(k, v')] := by
  induction m with
  | nil => simp [mapSet]
  | cons p rest ih =>
      obtain ⟨k', w⟩ := p
      simp only [mapGet] at hm
      by_cases hk : k' = k
      · simp [hk] at hm
      · have hrest := ih (by simpa [hk] using hm)
        simp [mapSet, if_neg hk, List.append_eq, hrest]

/-- C1: when tool dispatch over a finalized block sequence completes,
it produces exactly one tool_result block per tool_use block, each
carrying the invocation identifier of its corresponding tool_use
block, and the results appear in the order of their originating
tool_use blocks. -/
theorem claim_C1 (handlers : List (String × Handler))
    (blocks : List RespBlock) (results : List ToolResultBlock)
    (h : dispatchBlocks handlers blocks = .ok results) :
    results.length = (blocks.filterMap toolUseId).length ∧
    results.map ToolResultBlock.tool_use_id = blocks.filterMap toolUseId := by
  have hid := dispatch_ids handlers blocks results h
  exact ⟨by rw [← hid, List.length_map], hid⟩

theorem claim_C1_witness :
    dispatchBlocks wHandlers wBlocks =
      .ok [⟨"id1", "4", false⟩, ⟨"id2", "boom", true⟩] ∧
    ([⟨"id1", "4", false⟩, ⟨"id2", "boom", true⟩] :
        List ToolResultBlock).length = (wBlocks.filterMap toolUseId).length ∧
    ([⟨"id1", "4", false⟩, ⟨"id2", "boom", true⟩] :
        List ToolResultBlock).map ToolResultBlock.tool_use_id =
      wBlocks.filterMap toolUseId :=
  ⟨rfl, claim_C1 wHandlers wBlocks [⟨"id1", "4", false⟩, ⟨"id2", "boom", true⟩] rfl⟩

/-- C2: after a turn whose assembly and dispatch both complete, zero
tool results makes the loop terminal with the assistant blocks
appended and no further network turn requested; one or more results
makes the loop append the assistant message and a user message
wrapping all tool results, then request another turn. -/
theorem claim_C2 (parse : JsonParse) (handlers : List (String × Handler))
    (events : List StreamEvent) (history : List Message)
    (rest : List (List StreamEvent)) (st : AsmState)
    (results : List ToolResultBlock)
    (h1 : assembleTurn parse events = .ok st)
    (h2 : dispatchBlocks handlers st.responseBlocks = .ok results) :
    (results = [] →
      streamLoop parse handlers history (events :: rest) =
        .ok (history ++ [⟨.assistant, .blocks st.responseBlocks⟩],
             st.yields)) ∧
    (results ≠ [] →
      streamLoop parse handlers history (events :: rest) =
        (streamLoop parse handlers
            (history ++ [⟨.assistant, .blocks st.responseBlocks⟩,
                         ⟨.user, .toolResults results⟩]) rest).map
          (fun p => (p.1, st.yields ++ p.2))) := by
  constructor
  · intro he
    subst he
    exact streamLoop_terminal parse handlers history events rest st h1 h2
  · intro hne
    exact streamLoop_continue parse handlers history events rest st results
      h1 h2 hne

theorem claim_C2_witness :
    (([⟨"id1", "4", false⟩] : List ToolResultBlock) = [] →
      streamLoop parseNone wHandlers [] [wToolEvents, []] =
        .ok ([⟨.assistant, .blocks wToolSt.responseBlocks⟩],
             wToolSt.yields)) ∧
    (([⟨"id1", "4", false⟩] : List ToolResultBlock) ≠ [] →
      streamLoop parseNone wHandlers [] [wToolEvents, []] =
        (streamLoop parseNone wHandlers
            [⟨.assistant, .blocks wToolSt.responseBlocks⟩,
             ⟨.user, .toolResults [⟨"id1", "4", false⟩]⟩] [[]]).map
          (fun p => (p.1, wToolSt.yields ++ p.2))) :=
  claim_C2 parseNone wHandlers wToolEvents [] [[]] wToolSt
    [⟨"id1", "4", false⟩] rfl rfl

/-- C3 as stated is false: finalizing a block does not destroy the
Pending Block, so a block-stop arriving right after a finalized block
is not an error; it re-finalizes the stale pending block and appends a
duplicate.  Concretely, the event sequence start-stop-stop assembles
successfully to two blocks instead of aborting. -/
theorem claim_C3_counterexample :
    assembleTurn parseNone
        [.contentBlockStart .text, .contentBlockStop, .contentBlockStop] =
      .ok { pendingBlock := some .text,
            responseBlocks := [.text "", .text ""],
            pendingText := "",
            yields := ["\n", "\n"] } := by
  rfl

/-- C3 amended: a block-stop with no Pending Block set (which can only
happen before the first block-start, since the Pending Block is never
cleared afterwards) is an immediate fatal error; a successful
block-stop leaves the Pending Block set, so a following block-stop is
not an error. -/
theorem claim_C3 (parse : JsonParse) (st : AsmState) :
    (st.pendingBlock = none →
      stepEvent parse st .contentBlockStop = .error .unexpectedStop) ∧
    (∀ st', stepEvent parse st .contentBlockStop = .ok st' →
      st'.pendingBlock = st.pendingBlock ∧ st'.pendingBlock ≠ none) := by
  constructor
  · intro h
    simp [stepEvent, h]
  · intro st' h
    cases hp : st.pendingBlock with
    | none => simp [stepEvent, hp] at h
    | some pb =>
        cases pb with
        | text =>
            simp only [stepEvent, hp] at h
            cases h
            simp [hp]
        | toolUse id name =>
            simp only [stepEvent, hp] at h
            by_cases he : st.pendingText = ""
            · rw [if_pos he] at h
              cases h
              simp [hp]
            · rw [if_neg he] at h
              cases hj : parse st.pendingText with
              | none => rw [hj] at h; cases h
              | some j =>
                  rw [hj] at h
                  cases h
                  simp [hp]

theorem claim_C3_witness :
    stepEvent parseNone initAsmState .contentBlockStop =
      .error .unexpectedStop ∧
    ((⟨some .text, [.text ""], "", ["\n"]⟩ : AsmState).pendingBlock =
        (⟨some .text, [], "", []⟩ : AsmState).pendingBlock ∧
      (⟨some .text, [.text ""], "", ["\n"]⟩ : AsmState).pendingBlock ≠
        none) :=
  ⟨(claim_C3 parseNone initAsmState).1 rfl,
   (claim_C3 parseNone ⟨some .text, [], "", []⟩).2
     ⟨some .text, [.text ""], "", ["\n"]⟩ rfl⟩

/-- C4 as stated is false: a block-start event does not reset the
accumulating text buffer (the buffer is only reset at block-stop), so
in a stream where a second block-start arrives without the previous
block having been finalized, the finalized content also contains the
deltas received before that block's own block-start.  Concretely,
after start, delta a, start, delta b, stop the finalized text block is
ab, not b. -/
theorem claim_C4_counterexample :
    assembleTurn parseNone
        [.contentBlockStart .text, .contentBlockDelta (.textDelta "a"),
         .contentBlockStart .text, .contentBlockDelta (.textDelta "b"),
         .contentBlockStop] =
      .ok { pendingBlock := some .text,
            responseBlocks := [.text "ab"],
            pendingText := "",
            yields := ["a", "b", "\n"] } := by
  rfl

/-- C4 amended: a block-start event sets the Pending Block to the
declared block and leaves the rest of the state, including the text
buffer, unchanged; the buffer is reset to empty at each successful
block-stop, so whenever a block starts with an empty buffer (as after
any finalization, and initially) its finalized content is exactly the
concatenation of its own deltas. -/
theorem claim_C4 (parse : JsonParse) (st : AsmState) (b : PendingBlock)
    (ds : List String) :
    stepEvent parse st (.contentBlockStart b) =
      .ok { st with pendingBlock := some b } ∧
    (∀ st', stepEvent parse st .contentBlockStop = .ok st' →
      st'.pendingText = "") ∧
    (st.pendingText = "" →
      assembleEvents parse st
          (.contentBlockStart .text ::
            ds.map (fun s => .contentBlockDelta (.textDelta s)) ++
              [.contentBlockStop]) =
        .ok { pendingBlock := some .text,
              responseBlocks := st.responseBlocks ++ [.text (concatAll ds)],
              pendingText := "",
              yields := st.yields ++ ds ++ ["\n"] }) := by
  refine ⟨rfl, ?_, fun h => assemble_textBlock parse ds st h⟩
  intro st' h
  cases hp : st.pendingBlock with
  | none => simp [stepEvent, hp] at h
  | some pb =>
      cases pb with
      | text =>
          simp only [stepEvent, hp] at h
          cases h
          rfl
      | toolUse id name =>
          simp only [stepEvent, hp] at h
          by_cases he : st.pendingText = ""
          · rw [if_pos he] at h
            cases h
            rfl
          · rw [if_neg he] at h
            cases hj : parse st.pendingText with
            | none => rw [hj] at h; cases h
            | some j =>
                rw [hj] at h
                cases h
                rfl

theorem claim_C4_witness :
    stepEvent parseNone ⟨some .text, [], "x", []⟩
        (.contentBlockStart .text) = .ok ⟨some .text, [], "x", []⟩ ∧
    (⟨some .text, [.text "x"], "", ["\n"]⟩ : AsmState).pendingText = "" ∧
    assembleEvents parseNone initAsmState
        (.contentBlockStart .text ::
          ["hi"].map (fun s => .contentBlockDelta (.textDelta s)) ++
            [.contentBlockStop]) =
      .ok { pendingBlock := some .text,
            responseBlocks := [.text (concatAll ["hi"])],
            pendingText := "",
            yields := ["hi"] ++ ["\n"] } :=
  ⟨(claim_C4 parseNone ⟨some .text, [], "x", []⟩ .text ["hi"]).1,
   (claim_C4 parseNone ⟨some .text, [], "x", []⟩ .text ["hi"]).2.1
     ⟨some .text, [.text "x"], "", ["\n"]⟩ rfl,
   (claim_C4 parseNone initAsmState .text ["hi"]).2.2 rfl⟩

/-- C5: for every well-formed text-only model turn (each block is one
block-start, its text deltas, one block-stop; no tool-use blocks), the
loop ends after that single turn regardless of what the network could
supply next, the history gains exactly one assistant message holding
the finalized text blocks, the yielded increments are each block's
deltas followed by one newline marker, and their concatenation equals
each block's finalized text followed by that newline. -/
theorem claim_C5 (parse : JsonParse) (handlers : List (String × Handler))
    (history : List Message) (bs : List (List String))
    (rest : List (List StreamEvent)) :
    streamLoop parse handlers history (textTurnEvents bs :: rest) =
      .ok (history ++
            [⟨.assistant, .blocks (bs.map (fun ds => .text (concatAll ds)))⟩],
           (bs.map (fun ds => ds ++ ["\n"])).flatten) ∧
    concatAll ((bs.map (fun ds => ds ++ ["\n"])).flatten) =
      concatAll (bs.map (fun ds => concatAll ds ++ "\n")) := by
  constructor
  · obtain ⟨pb, hpb⟩ := assemble_textTurn parse bs initAsmState rfl
    have hd : dispatchBlocks handlers
        ([] ++ bs.map (fun ds => RespBlock.text (concatAll ds))) = .ok [] := by
      have := dispatch_texts handlers (bs.map concatAll)
      simpa [List.map_map, Function.comp] using this
    have := streamLoop_terminal parse handlers history (textTurnEvents bs)
      rest _ hpb hd
    simpa using this
  · induction bs with
    | nil => rfl
    | cons ds bs ih =>
        simp only [List.map_cons, List.flatten_cons, concatAll_append, ih]
        simp [concatAll]

/-- C6: finalizing a tool-use block with an empty accumulated buffer
yields the empty structured object as its input without consulting the
parser; a nonempty buffer is parsed, a successful parse becomes the
block's input, and a parse failure is a fatal error. -/
theorem claim_C6 (parse : JsonParse) (st : AsmState) (id name : String)
    (hp : st.pendingBlock = some (.toolUse id name)) :
    (st.pendingText = "" →
      stepEvent parse st .contentBlockStop =
        .ok { st with
              responseBlocks :=
                st.responseBlocks ++ [.toolUse id name (Json.obj [])],
              pendingText := "" }) ∧
    (∀ j, st.pendingText ≠ "" → parse st.pendingText = some j →
      stepEvent parse st .contentBlockStop =
        .ok { st with
              responseBlocks := st.responseBlocks ++ [.toolUse id name j],
              pendingText := "" }) ∧
    (st.pendingText ≠ "" → parse st.pendingText = none →
      stepEvent parse st .contentBlockStop =
        .error (.jsonSyntaxError st.pendingText)) := by
  refine ⟨?_, ?_, ?_⟩
  · intro he
    simp only [stepEvent, hp]
    rw [if_pos he]
  · intro j hne hj
    simp only [stepEvent, hp]
    rw [if_neg hne, hj]
  · intro hne hj
    simp only [stepEvent, hp]
    rw [if_neg hne, hj]

theorem claim_C6_witness :
    stepEvent parseNone
        ⟨some (.toolUse "i" "t"), [], "", []⟩ .contentBlockStop =
      .ok ⟨some (.toolUse "i" "t"), [.toolUse "i" "t" (Json.obj [])],
           "", []⟩ ∧
    stepEvent parseAnyNull
        ⟨some (.toolUse "i" "t"), [], "x", []⟩ .contentBlockStop =
      .ok ⟨some (.toolUse "i" "t"), [.toolUse "i" "t" Json.null],
           "", []⟩ ∧
    stepEvent parseNone
        ⟨some (.toolUse "i" "t"), [], "x", []⟩ .contentBlockStop =
      .error (.jsonSyntaxError "x") :=
  ⟨(claim_C6 parseNone ⟨some (.toolUse "i" "t"), [], "", []⟩
      "i" "t" rfl).1 rfl,
   (claim_C6 parseAnyNull ⟨some (.toolUse "i" "t"), [], "x", []⟩
      "i" "t" rfl).2.1 Json.null (by decide) rfl,
   (claim_C6 parseNone ⟨some (.toolUse "i" "t"), [], "x", []⟩
      "i" "t" rfl).2.2 (by decide) rfl⟩

/-- C7: a tool invocation whose handler throws a recognized Error is
converted into a tool_result with the error flag set, the error
message as content and the matching invocation identifier, and
dispatch continues; when such a turn has one tool-use block the loop
then requests another network turn; a non-Error handler failure
propagates and aborts the loop. -/
theorem claim_C7 (handlers : List (String × Handler))
    (id name : String) (input : Json) (f : Handler)
    (hm : mapGet handlers name = some f) :
    (∀ m rest, f input = .errorWith m →
      dispatchBlocks handlers (.toolUse id name input :: rest) =
        (dispatchBlocks handlers rest).map
          (fun rs => ⟨id, m, true⟩ :: rs)) ∧
    (∀ rest, f input = .unrecognized →
      dispatchBlocks handlers (.toolUse id name input :: rest) =
        .error .unrecognizedFailure) ∧
    (∀ parse events history orest st m,
      assembleTurn parse events = .ok st →
      st.responseBlocks = [.toolUse id name input] →
      f input = .errorWith m →
      streamLoop parse handlers history (events :: orest) =
        (streamLoop parse handlers
            (history ++ [⟨.assistant, .blocks [.toolUse id name input]⟩,
                         ⟨.user, .toolResults [⟨id, m, true⟩]⟩]) orest).map
          (fun p => (p.1, st.yields ++ p.2))) := by
  refine ⟨?_, ?_, ?_⟩
  · intro m rest hf
    exact dispatch_toolUse_errorWith handlers id name input rest f m hm hf
  · intro rest hf
    exact dispatch_toolUse_unrecognized handlers id name input rest f hm hf
  · intro parse events history orest st m h1 hb hf
    have hd : dispatchBlocks handlers st.responseBlocks =
        .ok [⟨id, m, true⟩] := by
      rw [hb, dispatch_toolUse_errorWith handlers id name input [] f m hm hf]
      rfl
    have := streamLoop_continue parse handlers history events orest st
      [⟨id, m, true⟩] h1 hd (by simp)
    rw [this, hb]

theorem claim_C7_witness :
    dispatchBlocks wHandlers [.toolUse "id2" "echo" (Json.obj [])] =
      (dispatchBlocks wHandlers []).map
        (fun rs => ⟨"id2", "boom", true⟩ :: rs) ∧
    dispatchBlocks wHandlers [.toolUse "id3" "crash" Json.null] =
      .error .unrecognizedFailure ∧
    streamLoop parseNone wHandlers [] [wEchoEvents, []] =
      (streamLoop parseNone wHandlers
          [⟨.assistant, .blocks [.toolUse "id2" "echo" (Json.obj [])]⟩,
           ⟨.user, .toolResults [⟨"id2", "boom", true⟩]⟩] [[]]).map
        (fun p => (p.1, wEchoSt.yields ++ p.2)) :=
  ⟨(claim_C7 wHandlers "id2" "echo" (Json.obj []) echoH rfl).1
     "boom" [] rfl,
   (claim_C7 wHandlers "id3" "crash" Json.null crashH rfl).2.1 [] rfl,
   (claim_C7 wHandlers "id2" "echo" (Json.obj []) echoH rfl).2.2
     parseNone wEchoEvents [] [[]] wEchoSt "boom" rfl rfl rfl⟩

/-- C8: when a finalized turn contains a tool-use block whose tool
name has no registered handler, the stream call fails fatally: its
outcome is the same whatever further turns the network could supply
(so no further network turn is requested), and that outcome is a
thrown failure, not the artifact marking an exhausted oracle. -/
theorem claim_C8 (parse : JsonParse) (handlers : List (String × Handler))
    (events : List StreamEvent) (history : List Message) (st : AsmState)
    (id name : String) (input : Json)
    (h1 : assembleTurn parse events = .ok st)
    (hmem : RespBlock.toolUse id name input ∈ st.responseBlocks)
    (hm : mapGet handlers name = none) :
    ∀ rest,
      streamLoop parse handlers history (events :: rest) =
        streamLoop parse handlers history [events] ∧
      isFatal (streamLoop parse handlers history [events]) = true ∧
      streamLoop parse handlers history [events] ≠
        .error Err.oracleEnd := by
  obtain ⟨e, he, hne⟩ := dispatch_fatal_of_noHandler handlers
    st.responseBlocks id name input hmem hm
  have hrt := runTurn_error_dispatch parse handlers events history st e h1 he
  intro rest
  have h1s := streamLoop_error parse handlers history events rest e hrt
  have h2s := streamLoop_error parse handlers history events [] e hrt
  refine ⟨by rw [h1s, h2s], by rw [h2s]; rfl, ?_⟩
  rw [h2s]
  simp [hne]

theorem claim_C8_witness :
    streamLoop parseNone [] [] [wUnknownEvents, []] =
      streamLoop parseNone [] [] [wUnknownEvents] ∧
    isFatal (streamLoop parseNone [] [] [wUnknownEvents]) = true ∧
    streamLoop parseNone [] [] [wUnknownEvents] ≠ .error Err.oracleEnd :=
  claim_C8 parseNone [] wUnknownEvents [] wUnknownSt
    "i1" "unknown_tool" (Json.obj []) rfl
    (List.mem_singleton.mpr rfl) rfl [[]]

/-- C9 as stated is false: after registering two tools with the same
name, the handler Map indeed keeps a single entry mapped to the later
handler, but the instance's tool state also includes the tools array,
which retains both descriptors.  Concretely, registering dupT1 and
dupT2 (both named dup) leaves two entries named dup in the array. -/
theorem claim_C9_counterexample :
    ((addTool (addTool ClientTools.empty dupT1 dupH1) dupT2
        dupH2).tools.countP (fun t => t.name == "dup")) = 2 := by
  rfl

/-- C9 amended: registering two tools with the same name (the name
being absent before) leaves exactly one entry for that name in the
handler Map, mapped to the later handler (the duplicate registration
silently overwrites the prior handler, with no conflict check), while
the tools descriptor array retains both descriptors in registration
order. -/
theorem claim_C9 (c : ClientTools) (t1 t2 : ToolDecl)
    (h1 h2 : Handler) (hname : t1.name = t2.name)
    (habs : mapGet c.toolHandlers t2.name = none) :
    mapGet (addTool (addTool c t1 h1) t2 h2).toolHandlers t2.name =
      some h2 ∧
    (addTool (addTool c t1 h1) t2 h2).toolHandlers.countP
      (fun p => p.1 == t2.name) = 1 ∧
    (addTool (addTool c t1 h1) t2 h2).tools = c.tools ++ [t1, t2] := by
  have hset : (addTool (addTool c t1 h1) t2 h2).toolHandlers =
      c.toolHandlers ++ [(t2.name, h2)] := by
    show mapSet (mapSet c.toolHandlers t1.name h1) t2.name h2 =
      c.toolHandlers ++ [(t2.name, h2)]
    rw [hname, mapSet_of_absent c.toolHandlers t2.name h1 habs,
      mapSet_append_key c.toolHandlers t2.name h1 h2 habs]
  refine ⟨?_, ?_, ?_⟩
  · rw [hset]
    have := mapGet_mapSet_self c.toolHandlers t2.name h2
    rwa [mapSet_of_absent c.toolHandlers t2.name h2 habs] at this
  · rw [hset, List.countP_append, countP_key_of_absent c.toolHandlers
      t2.name habs]
    simp
  · show (c.tools ++ [t1]) ++ [t2] = c.tools ++ [t1, t2]
    simp

theorem claim_C9_witness :
    mapGet (addTool (addTool ClientTools.empty dupT1 dupH1) dupT2
        dupH2).toolHandlers dupT2.name = some dupH2 ∧
    (addTool (addTool ClientTools.empty dupT1 dupH1) dupT2
        dupH2).toolHandlers.countP (fun p => p.1 == dupT2.name) = 1 ∧
    (addTool (addTool ClientTools.empty dupT1 dupH1) dupT2
        dupH2).tools = ClientTools.empty.tools ++ [dupT1, dupT2] :=
  claim_C9 ClientTools.empty dupT1 dupT2 dupH1 dupH2 rfl rfl

/-- C10: the wrapper registered by addZodTool calls the user handler
only with inputs accepted by the schema parse (it passes the parsed
value through), and a schema validation failure becomes a thrown Error
whose message is converted by dispatch into an error-flagged
tool_result sent back to the model, after which the loop requests
another turn instead of aborting. -/
theorem claim_C10 (α : Type) (sp : Json → Except String α)
    (handler : α → HandlerOutcome) (input : Json) :
    (∀ t, sp input = .ok t →
      zodWrapper sp handler input = handler t) ∧
    (∀ m, sp input = .error m →
      zodWrapper sp handler input = .errorWith m) ∧
    (∀ (c : ClientTools) (name : String) (schemaJson : Json)
        (descr : Option String) (id m : String) (parse : JsonParse)
        (events : List StreamEvent) (history : List Message)
        (orest : List (List StreamEvent)) (st : AsmState),
      sp input = .error m →
      assembleTurn parse events = .ok st →
      st.responseBlocks = [.toolUse id name input] →
      streamLoop parse
          (addZodTool c name sp schemaJson descr handler).toolHandlers
          history (events :: orest) =
        (streamLoop parse
            (addZodTool c name sp schemaJson descr handler).toolHandlers
            (history ++ [⟨.assistant, .blocks [.toolUse id name input]⟩,
                         ⟨.user, .toolResults [⟨id, m, true⟩]⟩]) orest).map
          (fun p => (p.1, st.yields ++ p.2))) := by
  refine ⟨?_, ?_, ?_⟩
  · intro t hs
    simp [zodWrapper, hs]
  · intro m hs
    simp [zodWrapper, hs]
  · intro c name schemaJson descr id m parse events history orest st
      hs h1 hb
    have hget : mapGet
        (addZodTool c name sp schemaJson descr handler).toolHandlers name =
        some (zodWrapper sp handler) :=
      mapGet_mapSet_self c.toolHandlers name (zodWrapper sp handler)
    have hwrap : zodWrapper sp handler input = .errorWith m := by
      simp [zodWrapper, hs]
    have hd : dispatchBlocks
        (addZodTool c name sp schemaJson descr handler).toolHandlers
        st.responseBlocks = .ok [⟨id, m, true⟩] := by
      rw [hb, dispatch_toolUse_errorWith _ id name input []
        (zodWrapper sp handler) m hget hwrap]
      rfl
    have := streamLoop_continue parse
      (addZodTool c name sp schemaJson descr handler).toolHandlers
      history events orest st [⟨id, m, true⟩] h1 hd (by simp)
    rw [this, hb]

theorem claim_C10_witness :
    zodWrapper spString zHandler (Json.str "ok") = zHandler "ok" ∧
    zodWrapper spString zHandler (Json.obj []) =
      .errorWith "invalid input" ∧
    streamLoop parseNone
        (addZodTool ClientTools.empty "zt" spString Json.null none
          zHandler).toolHandlers [] [wZodEvents, []] =
      (streamLoop parseNone
          (addZodTool ClientTools.empty "zt" spString Json.null none
            zHandler).toolHandlers
          [⟨.assistant, .blocks [.toolUse "z1" "zt" (Json.obj [])]⟩,
           ⟨.user, .toolResults [⟨"z1", "invalid input", true⟩]⟩]
          [[]]).map (fun p => (p.1, wZodSt.yields ++ p.2)) :=
  ⟨(claim_C10 String spString zHandler (Json.str "ok")).1 "ok" rfl,
   (claim_C10 String spString zHandler (Json.obj [])).2.1
     "invalid input" rfl,
   (claim_C10 String spString zHandler (Json.obj [])).2.2
     ClientTools.empty "zt" Json.null none "z1" "invalid input"
     parseNone wZodEvents [] [[]] wZodSt rfl rfl rfl⟩
